import Mathlib

/-!
Verification development for the spam-lists repository.

The file embeds, in Lean, the validation module of the repository
(src/spam_lists/validation.py) and — where the repository ships only the
tests of a module — models of the reputation-testing engine taken from the
specification (spec.md): the Host value type, the classification decoding,
the DNSBL / HpHosts / GoogleSafeBrowsing / HostCollection backends and the
generic batch query operations.  Python exceptions are embedded as an
explicit error type carried by `Except`; machine strings are Lean `String`s
and the CPython `urlparse` collaborator is embedded over `List Char`.
-/

namespace SpamLists

/-- The exceptions observable from the library, embedded as one error type:
`invalidHostError` / `invalidURLError` come from spam_lists.exceptions,
`unknownCodeError` and `unauthorizedAPIKeyError` from the classification
decoding and the batch HTTP backend, `valueError` / `typeError` stand for
the builtin Python ValueError / TypeError, and `httpError` for
requests.exceptions.HTTPError raised on an unexpected status code. -/
inductive SpamListsError where
  | invalidHostError
  | invalidURLError
  | unknownCodeError
  | unauthorizedAPIKeyError
  | valueError
  | typeError
  | httpError
deriving DecidableEq, Repr

/-- The external `validators` collaborator (spec section 6: syntax validation
of hosts is out of scope, a pure predicate consumed by the core): the three
validator functions validators.ipv4, validators.ipv6 and validators.domain
used by is_valid_host. -/
structure HostValidators where
  ipv4 : String → Bool
  ipv6 : String → Bool
  domain : String → Bool

/-- Embedding of validation.is_valid_host: `any(f(value) for f in
(validators.ipv4, validators.ipv6, validators.domain))`. -/
def is_valid_host (v : HostValidators) (value : String) : Bool :=
  v.ipv4 value || v.ipv6 value || v.domain value

/-- A character of the scheme class `[a-z0-9\.\-\+]` under re.IGNORECASE
(so uppercase letters match as well).  The same set is Python urllib's
scheme_chars, used when urlparse splits the scheme off. -/
def isSchemeChar (c : Char) : Bool :=
  c.isAlpha || c.isDigit || c == '.' || c == '-' || c == '+'

/-- A character of the bracketed-host class `[0-9a-f:\.]` under
re.IGNORECASE. -/
def isIpv6Char (c : Char) : Bool :=
  c.isDigit || ('a' ≤ c && c ≤ 'f') || ('A' ≤ c && c ≤ 'F') || c == ':' || c == '.'

/-- No character is whitespace: the regex classes `\S` (in the
authentication group) and `[^\s]` (in the path group) demand this of every
remaining character. -/
def noWs (cs : List Char) : Bool :=
  cs.all (fun c => !c.isWhitespace)

/-- Embedding of the final group `(?:[/?#][^\s]*)?$` of URL_REGEX: the
remaining input is empty, or starts a path/query/fragment — one of `/`,
`?`, `#` followed by non-whitespace characters up to the end. -/
def matchPath : List Char → Bool
  | [] => true
  | c :: rest => (c == '/' || c == '?' || c == '#') && noWs rest

/-- Embedding of `(?::\d{2,5})?(?:[/?#][^\s]*)?$`: either the path group
matches directly, or a port — a colon and between two and five digits —
precedes it.  Every admissible digit count is tried, as the regex engine
would by backtracking. -/
def matchTail (cs : List Char) : Bool :=
  matchPath cs ||
    (cs.headD ' ' == ':' &&
      [2, 3, 4, 5].any (fun k =>
        decide (k ≤ (cs.drop 1).length) && ((cs.drop 1).take k).all Char.isDigit &&
          matchPath ((cs.drop 1).drop k)))

/-- Embedding of the host alternative `(?:[^/:]+|\[[0-9a-f:\.]+\])`
followed by the tail of URL_REGEX: either a non-empty run of characters
other than `/` and `:` (every length is tried, as backtracking would), or
a bracketed run of IPv6 characters.  An empty input fails both
alternatives; the placeholder head ' ' matches neither opening literal. -/
def matchHostTail (cs : List Char) : Bool :=
  (List.range cs.length).any (fun j0 =>
      (cs.take (j0 + 1)).all (fun c => !(c == '/' || c == ':')) &&
        matchTail (cs.drop (j0 + 1))) ||
    (cs.headD ' ' == '[' &&
      (List.range (cs.drop 1).length).any (fun k0 =>
        ((cs.drop 1).take (k0 + 1)).all isIpv6Char &&
          (cs.drop 1).get? (k0 + 1) == some ']' &&
            matchTail ((cs.drop 1).drop (k0 + 2))))

/-- Embedding of the optional authentication group `(?:\S+(?::\S*)?@)?`
followed by the host and tail: `\S+(?::\S*)?` matches exactly the
non-empty whitespace-free strings (the colon alternative adds nothing, a
colon being itself non-whitespace), so the group consumes the input up to
some `@` preceded by a non-empty whitespace-free run; the group being
optional, the bare host alternative is also tried. -/
def matchAfterScheme (cs : List Char) : Bool :=
  matchHostTail cs ||
    (List.range cs.length).any (fun i =>
      decide (1 ≤ i) && cs.get? i == some '@' && noWs (cs.take i) &&
        matchHostTail (cs.drop (i + 1)))

/-- Embedding of validation.URL_REGEX, anchored at both ends.  The scheme
part `^[a-z0-9\.\-\+]*://` is compiled deterministically: since `:` and
`/` are not scheme characters, the only candidate split point is the end
of the maximal run of scheme characters, which must be followed by the
literal `://`. -/
def urlRegexMatch (value : String) : Bool :=
  match value.data.dropWhile isSchemeChar with
  | c1 :: c2 :: c3 :: after =>
      c1 == ':' && c2 == '/' && c3 == '/' && matchAfterScheme after
  | _ => false

/-- Embedding of the scheme split of CPython urlsplit: when the first `:`
appears at a positive index and everything before it is a scheme
character, scheme and separator are dropped; otherwise the input is kept
whole. -/
def pySchemeSplit (cs : List Char) : List Char :=
  match cs.findIdx? (fun c => c == ':') with
  | some i => if 0 < i && (cs.take i).all isSchemeChar then cs.drop (i + 1) else cs
  | none => cs

/-- Embedding of the netloc of CPython urlsplit: present only when the
input (after the scheme split) starts with `//`, and then extending up to
the first `/`, `?` or `#`. -/
def pyNetloc (cs : List Char) : Option (List Char) :=
  match cs with
  | c1 :: c2 :: rest =>
      if c1 == '/' && c2 == '/' then
        some (rest.takeWhile (fun c => !(c == '/' || c == '?' || c == '#')))
      else none
  | _ => none

/-- The part of a string after its last occurrence of `@`
(str.rpartition in CPython's _hostinfo); the whole string when `@` does
not occur. -/
def afterLastAt (cs : List Char) : List Char :=
  (cs.reverse.takeWhile (fun c => !(c == '@'))).reverse

/-- The part of a string after the first occurrence of the given
character (str.partition); empty when the character does not occur. -/
def afterFirst (d : Char) (cs : List Char) : List Char :=
  (cs.dropWhile (fun c => !(c == d))).drop 1

/-- The host part of CPython's _hostinfo: inside the brackets when the
host information contains `[`, otherwise up to the first `:`. -/
def pyHostinfoHost (hostinfo : List Char) : List Char :=
  if hostinfo.any (fun c => c == '[') then
    (afterFirst '[' hostinfo).takeWhile (fun c => !(c == ']'))
  else
    hostinfo.takeWhile (fun c => !(c == ':'))

/-- ASCII lowercasing, as the hostname property of CPython's parse result
applies to the host. -/
def pyLower (cs : List Char) : List Char :=
  cs.map Char.toLower

/-- Embedding of `urlparse(value).hostname` for the CPython collaborator:
splits the scheme, extracts the netloc, raises ValueError on an
unbalanced bracket (urlsplit's "Invalid IPv6 URL" check), drops the user
information up to the last `@`, and returns the lowercased host — `none`
standing for Python's None when the host is empty or no netloc exists. -/
def pyHostname (value : String) : Except SpamListsError (Option String) :=
  let rest := pySchemeSplit value.data
  match pyNetloc rest with
  | none => Except.ok none
  | some netloc =>
      if (netloc.any (fun c => c == '[')) != (netloc.any (fun c => c == ']')) then
        Except.error SpamListsError.valueError
      else
        let host := pyHostinfoHost (afterLastAt netloc)
        if host.isEmpty then Except.ok none
        else Except.ok (some (String.mk (pyLower host)))

/-- Embedding of the port text of CPython's _hostinfo: after the closing
bracket for a bracketed host, otherwise after the first `:` of the host
information; `none` when empty. -/
def pyPortText (value : String) : Except SpamListsError (Option String) :=
  let rest := pySchemeSplit value.data
  match pyNetloc rest with
  | none => Except.ok none
  | some netloc =>
      if (netloc.any (fun c => c == '[')) != (netloc.any (fun c => c == ']')) then
        Except.error SpamListsError.valueError
      else
        let hostinfo := afterLastAt netloc
        let port :=
          if hostinfo.any (fun c => c == '[') then
            afterFirst ':' (afterFirst ']' hostinfo)
          else
            afterFirst ':' hostinfo
        if port.isEmpty then Except.ok none
        else Except.ok (some (String.mk port))

/-- The Python-level call `is_valid_host(host_str)` inside is_valid_url,
where `host_str` is `urlparse(value).hostname` and may be None: each of
the external validator functions applies a regular expression to its
argument, so receiving None raises a TypeError instead of returning a
boolean. -/
def is_valid_host_py (v : HostValidators) : Option String → Except SpamListsError Bool
  | none => Except.error SpamListsError.typeError
  | some s => Except.ok (is_valid_host v s)

/-- Embedding of validation.is_valid_url:
`match = URL_REGEX.match(value)`, then `host_str =
urlparse(value).hostname` (whose computation can raise), then
`return match and is_valid_host(host_str)` — when the regex does not
match, the falsy match object is returned without calling is_valid_host;
when it matches, the result is that of is_valid_host on the possibly
absent hostname.  Truthiness of the Python result is embedded as `Bool`. -/
def is_valid_url (v : HostValidators) (value : String) : Except SpamListsError Bool := do
  let m := urlRegexMatch value
  let host_str ← pyHostname value
  if m then is_valid_host_py v host_str else pure false

/-- Embedding of validation.accepts_valid_host applied to a method: the
wrapper raises InvalidHostError when is_valid_host rejects the value and
otherwise returns the wrapped method's result.  The wrapped method
(including any Host construction and backend request it performs) is the
function argument, applied only in the valid branch. -/
def accepts_valid_host {α : Type} (v : HostValidators) (func : String → α)
    (value : String) : Except SpamListsError α :=
  if is_valid_host v value then Except.ok (func value)
  else Except.error SpamListsError.invalidHostError

/-- Embedding of the list comprehension
`[u for u in urls if not is_valid_url(u)]` inside accepts_valid_urls:
is_valid_url is evaluated on every element from left to right, and an
exception it raises propagates. -/
def invalidUrlsOf (v : HostValidators) : List String → Except SpamListsError (List String)
  | [] => Except.ok []
  | u :: rest => do
      let b ← is_valid_url v u
      let tail ← invalidUrlsOf v rest
      pure (if b then tail else u :: tail)

/-- Embedding of validation.accepts_valid_urls applied to a method: the
invalid elements are collected first (left to right); when some exist the
wrapper raises InvalidURLError, otherwise it returns the wrapped method's
result. -/
def accepts_valid_urls {α : Type} (v : HostValidators) (func : List String → α)
    (urls : List String) : Except SpamListsError α :=
  match invalidUrlsOf v urls with
  | Except.error e => Except.error e
  | Except.ok invalid =>
      if invalid.isEmpty then Except.ok (func urls)
      else Except.error SpamListsError.invalidURLError

/-- Modelled from the spec: structures.AddressListItem is not under src/.
Spec section 3: an immutable record of the matched value (host or URL, as
the backend documents), the backend that produced the match (modelled by
its identifying name) and the classification tag set. -/
structure AddressListItem where
  value : String
  source : String
  classification : List String
deriving DecidableEq, Repr

/-- Modelled from the spec: the QueryOrchestrator's any_match (spec
section 4.7), the generic service_models code being absent from src/.
Scans the values in order, short-circuits on the first match, returns
false when none match; an exception from the underlying test aborts the
operation. -/
def any_match_run {V E : Type} (test : V → Except E Bool) : List V → Except E Bool
  | [] => Except.ok false
  | v :: rest =>
      match test v with
      | Except.error e => Except.error e
      | Except.ok true => Except.ok true
      | Except.ok false => any_match_run test rest

/-- Modelled from the spec: the QueryOrchestrator's filter_matching (spec
section 4.7), a lazy one-pass generator.  Its observable behaviour is
embedded as the list of values it yields, in input order, together with
the exception (if any) it raises after those yields. -/
def filter_matching_run {V E : Type} (test : V → Except E Bool) :
    List V → List V × Option E
  | [] => ([], none)
  | v :: rest =>
      match test v with
      | Except.error e => ([], some e)
      | Except.ok true =>
          let r := filter_matching_run test rest
          (v :: r.1, r.2)
      | Except.ok false => filter_matching_run test rest

/-- Modelled from the spec: the QueryOrchestrator's lookup_matching (spec
section 4.7), like filter_matching but yielding the full AddressListItem
of each match; embedded as the yielded items plus the exception (if any)
raised after them. -/
def lookup_matching_run {V E A : Type} (f : V → Except E (Option A)) :
    List V → List A × Option E
  | [] => ([], none)
  | v :: rest =>
      match f v with
      | Except.error e => ([], some e)
      | Except.ok none => lookup_matching_run f rest
      | Except.ok (some a) =>
          let r := lookup_matching_run f rest
          (a :: r.1, r.2)

/-- Modelled from the spec: the UrlTester capability reduces each URL to
its host via URL parsing (spec sections 2 and 4.7) before delegating to
the single-host test; an absent hostname is passed on to host validation,
which raises on it. -/
def hostOfURL (url : String) : Except SpamListsError String := do
  match ← pyHostname url with
  | none => Except.error SpamListsError.typeError
  | some h => Except.ok h

/-- Modelled from the spec: the DNSBL backend's construction state (spec
section 4.3: backend name, DNS query suffix, classification mapping),
service_models.DNSBL being absent from src/.  The mapping is the static
code-to-tag table supplied at construction. -/
structure DNSBL where
  name : String
  query_suffix : String
  code_item_class : List (Nat × String)

/-- Modelled from the spec: decoding one classification return code via
the supplied mapping (spec section 4.2, bitmask codec; the legacy test
calls this get_classification): a code absent from the mapping raises
UnknownCodeError. -/
def get_classification (m : List (Nat × String)) (code : Nat) :
    Except SpamListsError String :=
  match m.find? (fun p => p.1 == code) with
  | some p => Except.ok p.2
  | none => Except.error SpamListsError.unknownCodeError

/-- Modelled from the spec: decoding the full set of return codes of one
DNS answer (spec section 4.2): each code must independently map to a tag,
and UnknownCodeError propagates when any code has no mapping. -/
def get_classifications (m : List (Nat × String)) :
    List Nat → Except SpamListsError (List String)
  | [] => Except.ok []
  | c :: rest => do
      let tag ← get_classification m c
      let tags ← get_classifications m rest
      pure (tag :: tags)

/-- Modelled from the spec: the DNS query name of a host — the host
value followed by the backend's query suffix (spec section 4.3; octet
reversal for IP hosts is part of the host factory and does not matter to
the claims, which key the resolver on the whole query name). -/
def queryName (b : DNSBL) (host : String) : String :=
  host ++ "." ++ b.query_suffix

/-- Modelled from the spec: DNSBL membership test (spec section 4.3):
after host validation (the accepts_valid_host wrapper), the query name is
resolved; a name-not-found response (`none`) means not listed and any
answer means listed.  The resolver collaborator maps a query name to the
return codes of its answer, or `none` for NXDOMAIN. -/
def DNSBL.contains (b : DNSBL) (v : HostValidators)
    (resolver : String → Option (List Nat)) (host : String) :
    Except SpamListsError Bool :=
  if is_valid_host v host then Except.ok (resolver (queryName b host)).isSome
  else Except.error SpamListsError.invalidHostError

/-- Modelled from the spec: DNSBL lookup (spec section 4.3): same query
as the membership test; all returned codes are decoded via the bitmask
codec — UnknownCodeError from decoding propagates, not caught locally —
and a listed host yields an AddressListItem with the host as value. -/
def DNSBL.lookup (b : DNSBL) (v : HostValidators)
    (resolver : String → Option (List Nat)) (host : String) :
    Except SpamListsError (Option AddressListItem) :=
  if is_valid_host v host then
    match resolver (queryName b host) with
    | none => Except.ok none
    | some codes => do
        let tags ← get_classifications b.code_item_class codes
        Except.ok (some ⟨host, b.name, tags⟩)
  else Except.error SpamListsError.invalidHostError

/-- Modelled from the spec: DNSBL lookup_matching over URLs (spec
sections 4.3 and 4.7): the URLs are validated first (the
accepts_valid_urls wrapper, with the validator collaborator's pure URL
predicate of spec section 6), then each URL is reduced to its host and
looked up; embedded as the yielded items plus the raised exception. -/
def DNSBL.lookup_matching (b : DNSBL) (v : HostValidators)
    (urlValid : String → Bool) (resolver : String → Option (List Nat))
    (urls : List String) : List AddressListItem × Option SpamListsError :=
  if urls.any (fun u => !urlValid u) then
    ([], some SpamListsError.invalidURLError)
  else
    lookup_matching_run (fun url => do
      let h ← hostOfURL url
      b.lookup v resolver h) urls

/-- Modelled from the spec: the HpHosts backend's construction state
(spec section 4.4), service_models.HpHosts being absent from src/. -/
structure HpHosts where
  client_name : String

/-- str.split with a one-character separator, over the character list:
"Listed,EMD" splits into "Listed" and "EMD", a trailing or doubled
separator produces an empty field, the empty string one empty field. -/
def splitByChar (d : Char) : List Char → List (List Char)
  | [] => [[]]
  | c :: rest =>
      let r := splitByChar d rest
      if c == d then [] :: r else (c :: r.headD []) :: r.tail

/-- Modelled from the spec: the delimited-string codec (spec section 4.2):
a body "Listed,TAG1,TAG2" produces the tags, "Not listed" signals not
listed (`none`), distinct from an empty-but-listed result. -/
def hpDecode (content : String) : Option (List String) :=
  if "Listed".data.isPrefixOf content.data then
    some (((splitByChar ',' content.data).drop 1).map (fun l => String.mk l))
  else none

/-- Modelled from the spec: the GET query URL with the host value as a
query parameter (spec section 4.4). -/
def hpQueryURL (hp : HpHosts) (host : String) : String :=
  "http://verify.hosts-file.net/?v=" ++ hp.client_name ++ "&s=" ++ host

/-- Modelled from the spec: HpHosts membership test (spec section 4.4):
after host validation, a host that syntactically validates as IPv6 is
rejected up front with a ValueError before any network call (the
backend's API does not support IPv6 query strings); otherwise one GET
request is issued and its body decoded.  The get collaborator maps a
request URL to the response body. -/
def HpHosts.contains (hp : HpHosts) (v : HostValidators)
    (get : String → String) (host : String) : Except SpamListsError Bool :=
  if !is_valid_host v host then Except.error SpamListsError.invalidHostError
  else if v.ipv6 host then Except.error SpamListsError.valueError
  else Except.ok (hpDecode (get (hpQueryURL hp host))).isSome

/-- Modelled from the spec: HpHosts lookup (spec section 4.4): same
request and decoding as the membership test; a listed host yields an
AddressListItem with the host as value. -/
def HpHosts.lookup (hp : HpHosts) (v : HostValidators)
    (get : String → String) (host : String) :
    Except SpamListsError (Option AddressListItem) :=
  if !is_valid_host v host then Except.error SpamListsError.invalidHostError
  else if v.ipv6 host then Except.error SpamListsError.valueError
  else
    Except.ok ((hpDecode (get (hpQueryURL hp host))).map
      (fun tags => ⟨host, hp.client_name, tags⟩))

/-- Modelled from the spec: HpHosts any_match over URLs (spec section
4.7): the URLs are validated, then each is reduced to its host and the
membership test applied, short-circuiting on the first match. -/
def HpHosts.any_match (hp : HpHosts) (v : HostValidators)
    (urlValid : String → Bool) (get : String → String)
    (urls : List String) : Except SpamListsError Bool :=
  if urls.any (fun u => !urlValid u) then
    Except.error SpamListsError.invalidURLError
  else
    any_match_run (fun url => do
      let h ← hostOfURL url
      hp.contains v get h) urls

/-- Modelled from the spec: HpHosts lookup_matching over URLs (spec
section 4.7), embedded as the yielded items plus the raised exception. -/
def HpHosts.lookup_matching (hp : HpHosts) (v : HostValidators)
    (urlValid : String → Bool) (get : String → String)
    (urls : List String) : List AddressListItem × Option SpamListsError :=
  if urls.any (fun u => !urlValid u) then
    ([], some SpamListsError.invalidURLError)
  else
    lookup_matching_run (fun url => do
      let h ← hostOfURL url
      hp.lookup v get h) urls

/-- The HTTP collaborator's response (spec section 6): status code and
body. -/
structure HttpResponse where
  status_code : Nat
  content : String

/-- Modelled from the spec: the batch HTTP backend's construction state
(spec section 4.5), service_models.GoogleSafeBrowsing being absent from
src/. -/
structure GoogleSafeBrowsing where
  client_name : String
  app_version : String
  api_key : String

/-- Modelled from the spec: the batch request body — one URL per line
after a header line (spec section 4.5). -/
def gsbRequestBody (urls : List String) : String :=
  toString urls.length ++ "\n" ++ String.intercalate "\n" urls

/-- Modelled from the spec: one batch POST exchange and its per-entry
line decoding (spec sections 4.2 and 4.5): an authorization failure (401)
raises UnauthorizedAPIKeyError rather than being read as no matches; 204
means no matches; a 200 body has one line per submitted URL, in
submission order, each either the not-matched sentinel "ok" or a
classification code; any other status raises.  Returns each matched URL
paired with its classification line. -/
def gsbRawMatches (g : GoogleSafeBrowsing) (post : String → HttpResponse)
    (urls : List String) : Except SpamListsError (List (String × String)) :=
  let resp := post (gsbRequestBody urls)
  if resp.status_code == 401 then
    Except.error SpamListsError.unauthorizedAPIKeyError
  else if resp.status_code == 204 then Except.ok []
  else if resp.status_code == 200 then
    Except.ok ((urls.zip ((splitByChar '\n' resp.content.data).map
      (fun l => String.mk l))).filter (fun p => p.2 != "ok"))
  else Except.error SpamListsError.httpError

/-- Modelled from the spec: GoogleSafeBrowsing lookup_matching (spec
section 4.5): the URLs are validated, submitted in one POST body, and
each matched URL yields an AddressListItem whose value is the URL
verbatim and whose classification splits the comma-separated line. -/
def GoogleSafeBrowsing.lookup_matching (g : GoogleSafeBrowsing)
    (urlValid : String → Bool) (post : String → HttpResponse)
    (urls : List String) : Except SpamListsError (List AddressListItem) :=
  if urls.any (fun u => !urlValid u) then
    Except.error SpamListsError.invalidURLError
  else
    match gsbRawMatches g post urls with
    | Except.error e => Except.error e
    | Except.ok ms =>
        Except.ok (ms.map (fun p =>
          ⟨p.1, g.client_name,
            (splitByChar ',' p.2.data).map (fun l => String.mk l)⟩))

/-- Modelled from the spec: GoogleSafeBrowsing filter_matching (spec
section 4.5): the matched URLs, in submission order. -/
def GoogleSafeBrowsing.filter_matching (g : GoogleSafeBrowsing)
    (urlValid : String → Bool) (post : String → HttpResponse)
    (urls : List String) : Except SpamListsError (List String) :=
  if urls.any (fun u => !urlValid u) then
    Except.error SpamListsError.invalidURLError
  else
    match gsbRawMatches g post urls with
    | Except.error e => Except.error e
    | Except.ok ms => Except.ok (ms.map (fun p => p.1))

/-- Modelled from the spec: GoogleSafeBrowsing any_match (spec section
4.5): true exactly when the batch exchange reports some match. -/
def GoogleSafeBrowsing.any_match (g : GoogleSafeBrowsing)
    (urlValid : String → Bool) (post : String → HttpResponse)
    (urls : List String) : Except SpamListsError Bool :=
  if urls.any (fun u => !urlValid u) then
    Except.error SpamListsError.invalidURLError
  else
    match gsbRawMatches g post urls with
    | Except.error e => Except.error e
    | Except.ok ms => Except.ok (!ms.isEmpty)

/-- Modelled from the spec: the Host value type (spec section 3), a
tagged union of IPv4, IPv6 and domain, structures.py being absent from
src/.  A domain carries its label sequence; values are stored normalized
(labels lowercase, trailing dot removed, IP text canonical), so equality
of normalized string forms is structural equality. -/
inductive Host where
  | ipv4 : String → Host
  | ipv6 : String → Host
  | domain : List String → Host
deriving DecidableEq, Repr

/-- The normalized string form of a host. -/
def Host.str : Host → String
  | Host.ipv4 s => s
  | Host.ipv6 s => s
  | Host.domain ls => String.intercalate "." ls

/-- Modelled from the spec: Host.is_subdomain (spec sections 3 and 4.1):
true exactly when the other host is a domain and this host's label
sequence is a suffix of, and strictly longer than, the other's; IP hosts
are never subdomains and never have subdomains. -/
def Host.is_subdomain (a b : Host) : Bool :=
  match a, b with
  | Host.domain al, Host.domain bl =>
      decide (bl.length < al.length) && bl.isSuffixOf al
  | _, _ => false

/-- Modelled from the spec: the in-memory HostCollection backend (spec
sections 3 and 4.6): a set of stored hosts with one shared classification
tag set. -/
structure HostCollection where
  identifier : String
  classification : List String
  hosts : List Host

/-- Modelled from the spec: HostCollection membership of a candidate host
(spec section 3): true when some stored host equals the candidate or the
candidate is a subdomain of a stored host. -/
def HostCollection.containsHost (col : HostCollection) (h : Host) : Bool :=
  col.hosts.any (fun s => s == h || Host.is_subdomain h s)

/-- Modelled from the spec: HostCollection lookup (spec sections 4.6 and
4.7): the first stored host matching the candidate, reported as an
AddressListItem whose value is the matched stored host. -/
def HostCollection.lookupHost (col : HostCollection) (h : Host) :
    Option AddressListItem :=
  (col.hosts.find? (fun s => s == h || Host.is_subdomain h s)).map
    (fun s => ⟨s.str, col.identifier, col.classification⟩)

/-- Concrete validator functions used to instantiate witnesses: a small
stand-in for the external `validators` collaborator, recognizing the
host strings the witnesses use. -/
def demoValidators : HostValidators :=
  { ipv4 := fun s => s == "127.0.0.1" || s == "127.0.0.2"
    ipv6 := fun s => s == "2001:ddd:ccc:111::33"
    domain := fun s =>
      s == "example.com" || s == "test.com" || s == "hostwithunknowncode.com" }

/-! ### Helper lemmas -/

theorem takeWhile_append_all {p : Char → Bool} {l1 : List Char} (l2 : List Char)
    (h : ∀ c ∈ l1, p c = true) :
    (l1 ++ l2).takeWhile p = l1 ++ l2.takeWhile p := by
  induction l1 with
  | nil => simp
  | cons a l ih =>
      have ha := h a (List.mem_cons_self a l)
      simp [List.takeWhile_cons, ha, ih (fun c hc => h c (List.mem_cons_of_mem a hc))]

theorem takeWhile_cons_of_neg {p : Char → Bool} {x : Char} (l : List Char)
    (hx : p x = false) : (x :: l).takeWhile p = [] := by
  simp [List.takeWhile_cons, hx]

theorem dropWhile_append_all {p : Char → Bool} {l1 : List Char} {x : Char}
    (l2 : List Char) (h : ∀ c ∈ l1, p c = true) (hx : p x = false) :
    (l1 ++ x :: l2).dropWhile p = x :: l2 := by
  induction l1 with
  | nil => simp [List.dropWhile_cons, hx]
  | cons a l ih =>
      have ha := h a (List.mem_cons_self a l)
      simp [List.dropWhile_cons, ha, ih (fun c hc => h c (List.mem_cons_of_mem a hc))]

theorem findIdx_colon_append (l1 l2 : List Char) (i : Nat)
    (h : ∀ c ∈ l1, (c == ':') = false) :
    List.findIdx? (fun c => c == ':') (l1 ++ ':' :: l2) i = some (l1.length + i) := by
  induction l1 generalizing i with
  | nil => simp [List.findIdx?_cons]
  | cons a l ih =>
      have ha := h a (List.mem_cons_self a l)
      rw [List.cons_append, List.findIdx?_cons, ha]
      simp only [if_false, Bool.false_eq_true]
      rw [ih (i + 1) (fun c hc => h c (List.mem_cons_of_mem a hc))]
      congr 1
      simp
      omega

theorem char_facts_digit {c : Char} (h : c.isDigit = true) :
    c ≠ '/' ∧ c ≠ '?' ∧ c ≠ '#' ∧ c ≠ ':' ∧ c ≠ '@' ∧ c ≠ '[' ∧ c ≠ ']' := by
  refine ⟨?_, ?_, ?_, ?_, ?_, ?_, ?_⟩ <;>
    (intro e; subst e; exact absurd h (by decide))

theorem isSchemeChar_facts {c : Char} (h : isSchemeChar c = true) :
    c ≠ ':' ∧ c ≠ '/' := by
  constructor <;> (intro e; subst e; exact absurd h (by decide))

theorem matchPath_cons_false {c : Char} (t : List Char)
    (h1 : c ≠ '/') (h2 : c ≠ '?') (h3 : c ≠ '#') : matchPath (c :: t) = false := by
  simp [matchPath, beq_eq_false_iff_ne.mpr h1, beq_eq_false_iff_ne.mpr h2,
    beq_eq_false_iff_ne.mpr h3]

theorem matchTail_cons_false {c : Char} (t : List Char)
    (h1 : c ≠ '/') (h2 : c ≠ '?') (h3 : c ≠ '#') (h4 : c ≠ ':') :
    matchTail (c :: t) = false := by
  simp [matchTail, matchPath_cons_false t h1 h2 h3, beq_eq_false_iff_ne.mpr h4]

/-! ### C1: the accepts_valid_host wrapper -/

/-- C1: for every string rejected by is_valid_host, a method wrapped by
accepts_valid_host raises InvalidHostError and the wrapped method is never
invoked (the result does not depend on the wrapped method, so no Host is
constructed and no backend request is issued); for every accepted string
the wrapper returns exactly the wrapped method's result. -/
theorem accepts_valid_host_spec {α : Type} (v : HostValidators) (value : String)
    (f g : String → α) :
    (is_valid_host v value = false →
      accepts_valid_host v f value = Except.error SpamListsError.invalidHostError ∧
        accepts_valid_host v f value = accepts_valid_host v g value) ∧
    (is_valid_host v value = true →
      accepts_valid_host v f value = Except.ok (f value)) := by
  constructor
  · intro h
    constructor <;> simp [accepts_valid_host, h]
  · intro h
    simp [accepts_valid_host, h]

/-- Witness for C1: concrete evaluations, obtained by applying
accepts_valid_host_spec at a rejected and at an accepted host string. -/
theorem accepts_valid_host_spec_witness :
    (is_valid_host demoValidators "not//a//host" = false ∧
      accepts_valid_host demoValidators (fun s => s.length) "not//a//host" =
        Except.error SpamListsError.invalidHostError) ∧
    (is_valid_host demoValidators "example.com" = true ∧
      accepts_valid_host demoValidators (fun s => s.length) "example.com" =
        Except.ok 11) := by
  refine ⟨⟨by decide, ?_⟩, ⟨by decide, ?_⟩⟩
  · exact ((accepts_valid_host_spec demoValidators "not//a//host"
      (fun s => s.length) (fun s => s.length)).1 (by decide)).1
  · exact (accepts_valid_host_spec demoValidators "example.com"
      (fun s => s.length) (fun s => s.length)).2 (by decide)

/-! ### C3: is_valid_url is not total -/

/-- C3: is_valid_url is not total over arbitrary strings: "http://@" and
"://example.com" both match URL_REGEX, yet URL parsing yields no hostname
for them, so is_valid_host is applied to the absent hostname value and a
TypeError escapes is_valid_url instead of it returning false — for any
behaviour of the external validator functions. -/
theorem is_valid_url_not_total (v : HostValidators) :
    urlRegexMatch "http://@" = true ∧
    pyHostname "http://@" = Except.ok none ∧
    is_valid_url v "http://@" = Except.error SpamListsError.typeError ∧
    urlRegexMatch "://example.com" = true ∧
    is_valid_url v "://example.com" = Except.error SpamListsError.typeError := by
  exact ⟨rfl, rfl, rfl, rfl, rfl⟩

/-! ### C2: the accepts_valid_urls wrapper -/

theorem invalidUrlsOf_ok (v : HostValidators) (urls : List String)
    (htot : ∀ u ∈ urls, ∃ b, is_valid_url v u = Except.ok b) :
    ∃ l, invalidUrlsOf v urls = Except.ok l ∧
      (l = [] ↔ ∀ u ∈ urls, is_valid_url v u = Except.ok true) ∧
      (l ≠ [] ↔ ∃ u ∈ urls, is_valid_url v u = Except.ok false) := by
  induction urls with
  | nil => exact ⟨[], rfl, by simp, by simp⟩
  | cons u rest ih =>
      obtain ⟨b, hb⟩ := htot u (List.mem_cons_self u rest)
      obtain ⟨l, hl, hl1, hl2⟩ :=
        ih (fun u' hu' => htot u' (List.mem_cons_of_mem u hu'))
      cases b with
      | true =>
          refine ⟨l, ?_, ?_, ?_⟩
          · simp [invalidUrlsOf, hb, hl, Bind.bind, Except.bind, Pure.pure, Except.pure]
          · rw [hl1]
            constructor
            · intro h u' hu'
              rcases List.mem_cons.mp hu' with h' | h'
              · rw [h']; exact hb
              · exact h u' h'
            · intro h u' hu'
              exact h u' (List.mem_cons_of_mem u hu')
          · rw [hl2]
            constructor
            · rintro ⟨u', hu', h'⟩
              exact ⟨u', List.mem_cons_of_mem u hu', h'⟩
            · rintro ⟨u', hu', h'⟩
              rcases List.mem_cons.mp hu' with h'' | h''
              · subst h''
                rw [hb] at h'
                simp at h'
              · exact ⟨u', h'', h'⟩
      | false =>
          refine ⟨u :: l, ?_, ?_, ?_⟩
          · simp [invalidUrlsOf, hb, hl, Bind.bind, Except.bind, Pure.pure, Except.pure]
          · constructor
            · intro h; simp at h
            · intro h
              have := h u (List.mem_cons_self u rest)
              rw [hb] at this
              simp at this
          · constructor
            · intro _
              exact ⟨u, List.mem_cons_self u rest, hb⟩
            · intro _
              simp

/-- C2 (amended): restricted to iterables of URL strings on each of which
is_valid_url returns a boolean (does not raise — see C3), a method
wrapped by accepts_valid_urls raises InvalidURLError if and only if at
least one element has is_valid_url false; in that case the wrapped method
is not called (the result does not depend on it, so the error precedes
any I/O); and when every element is valid the wrapper returns exactly the
wrapped method's result. -/
theorem accepts_valid_urls_spec {α : Type} (v : HostValidators)
    (f g : List String → α) (urls : List String)
    (htot : ∀ u ∈ urls, ∃ b, is_valid_url v u = Except.ok b) :
    (accepts_valid_urls v f urls = Except.error SpamListsError.invalidURLError ↔
      ∃ u ∈ urls, is_valid_url v u = Except.ok false) ∧
    ((∃ u ∈ urls, is_valid_url v u = Except.ok false) →
      accepts_valid_urls v f urls = accepts_valid_urls v g urls) ∧
    ((∀ u ∈ urls, is_valid_url v u = Except.ok true) →
      accepts_valid_urls v f urls = Except.ok (f urls)) := by
  obtain ⟨l, hl, h1, h2⟩ := invalidUrlsOf_ok v urls htot
  cases l with
  | nil =>
      have hv : ∀ u ∈ urls, is_valid_url v u = Except.ok true := h1.mp rfl
      have hne : ¬∃ u ∈ urls, is_valid_url v u = Except.ok false := by
        intro hex
        exact absurd rfl (h2.mpr hex)
      refine ⟨?_, ?_, ?_⟩
      · constructor
        · intro h
          rw [accepts_valid_urls, hl] at h
          simp at h
        · intro hex
          exact absurd hex hne
      · intro hex
        exact absurd hex hne
      · intro _
        rw [accepts_valid_urls, hl]
        simp
  | cons x xs =>
      have hex : ∃ u ∈ urls, is_valid_url v u = Except.ok false := by
        apply h2.mp
        simp
      refine ⟨?_, ?_, ?_⟩
      · constructor
        · intro _
          exact hex
        · intro _
          rw [accepts_valid_urls, hl]
          simp
      · intro _
        rw [accepts_valid_urls, accepts_valid_urls, hl]
        simp
      · intro hv
        have : (x :: xs) = [] := h1.mpr hv
        simp at this

/-- C2 counterexample: the claim as frozen fails on the code.  The list
["http://@", "garbage"] contains an element with is_valid_url false
("garbage"), yet the wrapper raises TypeError — the exception escaping
is_valid_url on "http://@" (C3) — and not InvalidURLError. -/
theorem accepts_valid_urls_counterexample :
    is_valid_url demoValidators "garbage" = Except.ok false ∧
    is_valid_url demoValidators "http://@" = Except.error SpamListsError.typeError ∧
    accepts_valid_urls demoValidators (fun l => l.length)
        ["http://@", "garbage"] = Except.error SpamListsError.typeError := by
  exact ⟨rfl, rfl, rfl⟩

/-- Witness for C2: concrete evaluations obtained by applying
accepts_valid_urls_spec to a list of one valid URL and to a list of one
invalid URL, discharging the totality hypothesis by computation. -/
theorem accepts_valid_urls_spec_witness :
    accepts_valid_urls demoValidators (fun l => l.length)
        ["http://example.com"] = Except.ok 1 ∧
    accepts_valid_urls demoValidators (fun l => l.length)
        ["garbage"] = Except.error SpamListsError.invalidURLError := by
  constructor
  · exact (accepts_valid_urls_spec demoValidators (fun l => l.length)
      (fun l => l.length) ["http://example.com"]
      (by intro u hu; rw [List.mem_singleton] at hu; subst hu; exact ⟨true, rfl⟩)).2.2
      (by intro u hu; rw [List.mem_singleton] at hu; subst hu; rfl)
  · exact (accepts_valid_urls_spec demoValidators (fun l => l.length)
      (fun l => l.length) ["garbage"]
      (by intro u hu; rw [List.mem_singleton] at hu; subst hu; exact ⟨false, rfl⟩)).1.mpr
      ⟨"garbage", List.mem_singleton.mpr rfl, rfl⟩

/-! ### C10: explicit ports with out-of-range digit counts -/

theorem matchTail_colon_port_false (ds rest : List Char)
    (hd : ∀ c ∈ ds, c.isDigit = true)
    (hdl : ds.length = 1 ∨ 6 ≤ ds.length)
    (hrest : rest = [] ∨ ∃ c rest2, rest = c :: rest2 ∧ (c = '/' ∨ c = '?' ∨ c = '#')) :
    matchTail (':' :: (ds ++ rest)) = false := by
  have hpath : matchPath (':' :: (ds ++ rest)) = false :=
    matchPath_cons_false _ (by decide) (by decide) (by decide)
  have hany : ([2, 3, 4, 5] : List Nat).any (fun k =>
      decide (k ≤ (ds ++ rest).length) && ((ds ++ rest).take k).all Char.isDigit &&
        matchPath ((ds ++ rest).drop k)) = false := by
    apply List.any_eq_false.mpr
    intro k hk
    rw [Bool.not_eq_true]
    have hk2 : 2 ≤ k := by fin_cases hk <;> omega
    have hk5 : k ≤ 5 := by fin_cases hk <;> omega
    rcases hdl with h1 | h6
    · obtain ⟨d, rfl⟩ : ∃ d, ds = [d] := by
        cases ds with
        | nil => simp at h1
        | cons d t =>
            cases t with
            | nil => exact ⟨d, rfl⟩
            | cons e t2 => simp at h1
      rcases hrest with rfl | ⟨c, rest2, rfl, hc⟩
      · have hlen : decide (k ≤ ([d] ++ ([] : List Char)).length) = false := by
          simp
          omega
        rw [hlen]
        simp
      · have hcd : Char.isDigit c = false := by
          rcases hc with rfl | rfl | rfl <;> decide
        obtain ⟨k1, rfl⟩ : ∃ k1, k = k1 + 2 := ⟨k - 2, by omega⟩
        have htake : ([d] ++ c :: rest2).take (k1 + 2) = d :: c :: rest2.take k1 := by
          simp [List.singleton_append, List.take_succ_cons]
        rw [htake]
        simp [List.all_cons, hcd]
    · have hklt : k < ds.length := by omega
      have hdig : (ds.get ⟨k, hklt⟩).isDigit = true := hd _ (List.get_mem ds k hklt)
      obtain ⟨f1, f2, f3, -⟩ := char_facts_digit hdig
      have hdrop : (ds ++ rest).drop k = ds.get ⟨k, hklt⟩ :: (ds.drop (k + 1) ++ rest) := by
        rw [List.drop_append_of_le_length (Nat.le_of_lt hklt)]
        rw [List.drop_eq_getElem_cons hklt, List.cons_append]
        simp [List.get_eq_getElem]
      rw [hdrop]
      rw [matchPath_cons_false _ f1 f2 f3]
      simp
  simp only [matchTail, List.headD_cons, List.drop_one, List.tail_cons]
  rw [hpath, hany]
  simp

theorem matchHostTail_false (host ds rest : List Char)
    (hh : host ≠ [])
    (hhc : ∀ c ∈ host,
      c ≠ ':' ∧ c ≠ '/' ∧ c ≠ '@' ∧ c ≠ '[' ∧ c ≠ ']' ∧ c ≠ '?' ∧ c ≠ '#')
    (hd : ∀ c ∈ ds, c.isDigit = true)
    (hdl : ds.length = 1 ∨ 6 ≤ ds.length)
    (hrest : rest = [] ∨ ∃ c rest2, rest = c :: rest2 ∧ (c = '/' ∨ c = '?' ∨ c = '#')) :
    matchHostTail (host ++ ':' :: (ds ++ rest)) = false := by
  have hA : (List.range (host ++ ':' :: (ds ++ rest)).length).any (fun j0 =>
      ((host ++ ':' :: (ds ++ rest)).take (j0 + 1)).all
          (fun c => !(c == '/' || c == ':')) &&
        matchTail ((host ++ ':' :: (ds ++ rest)).drop (j0 + 1))) = false := by
    apply List.any_eq_false.mpr
    intro j0 hj0
    rw [Bool.not_eq_true]
    rcases Nat.lt_or_ge j0 host.length with hcase | hcase
    · have hmt : matchTail ((host ++ ':' :: (ds ++ rest)).drop (j0 + 1)) = false := by
        rcases Nat.lt_or_ge (j0 + 1) host.length with hlt | hge
        · have hdrop : (host ++ ':' :: (ds ++ rest)).drop (j0 + 1) =
              host.get ⟨j0 + 1, hlt⟩ :: (host.drop (j0 + 2) ++ ':' :: (ds ++ rest)) := by
            rw [List.drop_append_of_le_length (Nat.le_of_lt hlt)]
            rw [List.drop_eq_getElem_cons hlt, List.cons_append]
            simp [List.get_eq_getElem]
          obtain ⟨g1, g2, -, -, -, g6, g7⟩ := hhc _ (List.get_mem host (j0 + 1) hlt)
          rw [hdrop]
          exact matchTail_cons_false _ g2 g6 g7 g1
        · have heq : j0 + 1 = host.length := by omega
          have hdrop : (host ++ ':' :: (ds ++ rest)).drop (j0 + 1) =
              ':' :: (ds ++ rest) := by
            rw [heq, List.drop_left]
          rw [hdrop]
          exact matchTail_colon_port_false ds rest hd hdl hrest
      rw [hmt]
      simp
    · have hmem : ':' ∈ (host ++ ':' :: (ds ++ rest)).take (j0 + 1) := by
        rw [List.take_append_eq_append_take]
        have h1 : host.take (j0 + 1) = host := List.take_of_length_le (by omega)
        obtain ⟨m, hm⟩ : ∃ m, j0 + 1 - host.length = m + 1 :=
          ⟨j0 - host.length, by omega⟩
        rw [h1, hm, List.take_succ_cons]
        simp
      have hall : ((host ++ ':' :: (ds ++ rest)).take (j0 + 1)).all
          (fun c => !(c == '/' || c == ':')) = false := by
        cases hx : ((host ++ ':' :: (ds ++ rest)).take (j0 + 1)).all
            (fun c => !(c == '/' || c == ':')) with
        | false => rfl
        | true =>
            have := List.all_eq_true.mp hx ':' hmem
            simp at this
      rw [hall]
      simp
  obtain ⟨h0, host', rfl⟩ : ∃ h0 host', host = h0 :: host' := by
    cases host with
    | nil => exact absurd rfl hh
    | cons a b => exact ⟨a, b, rfl⟩
  obtain ⟨-, -, -, g4, -, -, -⟩ := hhc h0 (List.mem_cons_self h0 host')
  simp only [matchHostTail]
  rw [hA]
  rw [List.cons_append, List.headD_cons]
  rw [beq_eq_false_iff_ne.mpr g4]
  simp

theorem urlRegexMatch_port_false (scheme host ds rest : List Char)
    (hs : ∀ c ∈ scheme, isSchemeChar c = true)
    (hh : host ≠ [])
    (hhc : ∀ c ∈ host,
      c ≠ ':' ∧ c ≠ '/' ∧ c ≠ '@' ∧ c ≠ '[' ∧ c ≠ ']' ∧ c ≠ '?' ∧ c ≠ '#')
    (hd : ∀ c ∈ ds, c.isDigit = true)
    (hdl : ds.length = 1 ∨ 6 ≤ ds.length)
    (hrest : rest = [] ∨ ∃ c rest2, rest = c :: rest2 ∧ (c = '/' ∨ c = '?' ∨ c = '#'))
    (hra : '@' ∉ rest) :
    urlRegexMatch (String.mk (scheme ++ ':' :: '/' :: '/' ::
      (host ++ ':' :: (ds ++ rest)))) = false := by
  have hat : '@' ∉ host ++ ':' :: (ds ++ rest) := by
    intro hmem
    rcases List.mem_append.mp hmem with h | h
    · exact (hhc _ h).2.2.1 rfl
    · rcases List.mem_cons.mp h with h' | h'
      · exact absurd h' (by decide)
      · rcases List.mem_append.mp h' with h'' | h''
        · exact absurd (hd _ h'') (by decide)
        · exact hra h''
  have hB : (List.range (host ++ ':' :: (ds ++ rest)).length).any (fun i =>
      decide (1 ≤ i) && (host ++ ':' :: (ds ++ rest)).get? i == some '@' &&
        noWs ((host ++ ':' :: (ds ++ rest)).take i) &&
        matchHostTail ((host ++ ':' :: (ds ++ rest)).drop (i + 1))) = false := by
    apply List.any_eq_false.mpr
    intro i hi
    rw [Bool.not_eq_true]
    have hget : ((host ++ ':' :: (ds ++ rest)).get? i == some '@') = false := by
      cases hg : (host ++ ':' :: (ds ++ rest)).get? i with
      | none => simp
      | some c =>
          have hcm : c ∈ host ++ ':' :: (ds ++ rest) := List.get?_mem hg
          have hcne : c ≠ '@' := fun e => hat (e ▸ hcm)
          simp [hcne]
    rw [hget]
    simp
  have hdropW : (scheme ++ ':' :: '/' :: '/' ::
      (host ++ ':' :: (ds ++ rest))).dropWhile isSchemeChar =
      ':' :: '/' :: '/' :: (host ++ ':' :: (ds ++ rest)) :=
    dropWhile_append_all _ hs (by decide)
  have hdata : (String.mk (scheme ++ ':' :: '/' :: '/' ::
      (host ++ ':' :: (ds ++ rest)))).data =
      scheme ++ ':' :: '/' :: '/' :: (host ++ ':' :: (ds ++ rest)) := rfl
  simp only [urlRegexMatch, hdata, hdropW]
  simp only [matchAfterScheme]
  rw [matchHostTail_false host ds rest hh hhc hd hdl hrest, hB]
  simp

theorem afterLastAt_no_at {l : List Char} (h : '@' ∉ l) : afterLastAt l = l := by
  have ht : l.reverse.takeWhile (fun c => !(c == '@')) = l.reverse := by
    apply List.takeWhile_eq_self_iff.mpr
    intro c hc
    have hcm : c ∈ l := List.mem_reverse.mp hc
    have : c ≠ '@' := fun e => h (e ▸ hcm)
    simp [this]
  unfold afterLastAt
  rw [ht, List.reverse_reverse]

theorem pyHostname_port_ok (scheme host ds rest : List Char)
    (hs : ∀ c ∈ scheme, isSchemeChar c = true)
    (hhc : ∀ c ∈ host,
      c ≠ ':' ∧ c ≠ '/' ∧ c ≠ '@' ∧ c ≠ '[' ∧ c ≠ ']' ∧ c ≠ '?' ∧ c ≠ '#')
    (hd : ∀ c ∈ ds, c.isDigit = true)
    (hrest : rest = [] ∨ ∃ c rest2, rest = c :: rest2 ∧ (c = '/' ∨ c = '?' ∨ c = '#')) :
    ∃ r, pyHostname (String.mk (scheme ++ ':' :: '/' :: '/' ::
      (host ++ ':' :: (ds ++ rest)))) = Except.ok r := by
  have hdata : (String.mk (scheme ++ ':' :: '/' :: '/' ::
      (host ++ ':' :: (ds ++ rest)))).data =
      scheme ++ ':' :: '/' :: '/' :: (host ++ ':' :: (ds ++ rest)) := rfl
  cases scheme with
  | nil =>
      refine ⟨none, ?_⟩
      simp only [pyHostname, hdata, List.nil_append]
      simp [pySchemeSplit, List.findIdx?_cons, pyNetloc]
  | cons s0 scheme' =>
      have hsplit : pySchemeSplit ((s0 :: scheme') ++ ':' :: '/' :: '/' ::
          (host ++ ':' :: (ds ++ rest))) =
          '/' :: '/' :: (host ++ ':' :: (ds ++ rest)) := by
        have hcol : ∀ c ∈ (s0 :: scheme'), (c == ':') = false := fun c hc =>
          beq_eq_false_iff_ne.mpr (isSchemeChar_facts (hs c hc)).1
        have hidx : List.findIdx? (fun c => c == ':')
            ((s0 :: scheme') ++ ':' :: '/' :: '/' ::
              (host ++ ':' :: (ds ++ rest))) 0 = some (s0 :: scheme').length := by
          have := findIdx_colon_append (s0 :: scheme')
            ('/' :: '/' :: (host ++ ':' :: (ds ++ rest))) 0 hcol
          simpa using this
        have htake : ((s0 :: scheme') ++ ':' :: '/' :: '/' ::
            (host ++ ':' :: (ds ++ rest))).take (s0 :: scheme').length =
            s0 :: scheme' := List.take_left _ _
        have hdrop1 : ((s0 :: scheme') ++ ':' :: '/' :: '/' ::
            (host ++ ':' :: (ds ++ rest))).drop ((s0 :: scheme').length + 1) =
            '/' :: '/' :: (host ++ ':' :: (ds ++ rest)) := by
          rw [← List.drop_drop 1 (s0 :: scheme').length]
          rw [List.drop_left]
          rfl
        simp only [pySchemeSplit, hidx, htake]
        rw [if_pos]
        · exact hdrop1
        · simp only [Bool.and_eq_true, decide_eq_true_eq]
          refine ⟨by simp, List.all_eq_true.mpr hs⟩
      have hnet : pyNetloc ('/' :: '/' :: (host ++ ':' :: (ds ++ rest))) =
          some ((host ++ ':' :: (ds ++ rest)).takeWhile
            (fun c => !(c == '/' || c == '?' || c == '#'))) := by
        simp [pyNetloc]
      have hassoc : host ++ ':' :: (ds ++ rest) = (host ++ ':' :: ds) ++ rest := by
        simp
      have hstopAll : ∀ c ∈ host ++ ':' :: ds,
          (!(c == '/' || c == '?' || c == '#')) = true := by
        intro c hc
        rcases List.mem_append.mp hc with h | h
        · obtain ⟨-, g2, -, -, -, g6, g7⟩ := hhc c h
          simp [beq_eq_false_iff_ne.mpr g2, beq_eq_false_iff_ne.mpr g6,
            beq_eq_false_iff_ne.mpr g7]
        · rcases List.mem_cons.mp h with h' | h'
          · subst h'
            decide
          · obtain ⟨g1, g2, g3, -⟩ := char_facts_digit (hd c h')
            simp [beq_eq_false_iff_ne.mpr g1, beq_eq_false_iff_ne.mpr g2,
              beq_eq_false_iff_ne.mpr g3]
      have hnetval : (host ++ ':' :: (ds ++ rest)).takeWhile
          (fun c => !(c == '/' || c == '?' || c == '#')) = host ++ ':' :: ds := by
        rw [hassoc, takeWhile_append_all rest hstopAll]
        rcases hrest with rfl | ⟨c, rest2, rfl, hc⟩
        · simp
        · have hcstop : (!(c == '/' || c == '?' || c == '#')) = false := by
            rcases hc with rfl | rfl | rfl <;> decide
          rw [takeWhile_cons_of_neg rest2 hcstop]
          simp
      have hnoBr : ∀ d ∈ ({'[', ']', '@'} : Set Char), ∀ c ∈ host ++ ':' :: ds, c ≠ d := by
        intro d hdm c hc
        rcases List.mem_append.mp hc with h | h
        · obtain ⟨g1, -, g3, g4, g5, -, -⟩ := hhc c h
          rcases hdm with rfl | rfl | rfl
          · exact g4
          · exact g5
          · exact g3
        · rcases List.mem_cons.mp h with h' | h'
          · subst h'
            rcases hdm with rfl | rfl | rfl <;> decide
          · obtain ⟨-, -, -, -, g5, g6, g7⟩ := char_facts_digit (hd c h')
            rcases hdm with rfl | rfl | rfl
            · exact g6
            · exact g7
            · exact g5
      have hopenBr : (host ++ ':' :: ds).any (fun c => c == '[') = false := by
        apply List.any_eq_false.mpr
        intro c hc
        simp [beq_eq_false_iff_ne.mpr (hnoBr '[' (by simp) c hc)]
      have hcloseBr : (host ++ ':' :: ds).any (fun c => c == ']') = false := by
        apply List.any_eq_false.mpr
        intro c hc
        simp [beq_eq_false_iff_ne.mpr (hnoBr ']' (by simp) c hc)]
      have hnoAt : '@' ∉ host ++ ':' :: ds := by
        intro hmem
        exact hnoBr '@' (by simp) '@' hmem rfl
      have hhost : pyHostinfoHost (host ++ ':' :: ds) = host := by
        unfold pyHostinfoHost
        rw [if_neg]
        · rw [takeWhile_append_all (':' :: ds)
            (fun c hc => by
              simp [beq_eq_false_iff_ne.mpr (hhc c hc).1])]
          rw [takeWhile_cons_of_neg ds (by decide)]
          simp
        · rw [hopenBr]
          simp
      refine ⟨if host.isEmpty then none else some (String.mk (pyLower host)), ?_⟩
      simp only [pyHostname, hdata, hsplit, hnet, hnetval]
      rw [afterLastAt_no_at hnoAt, hhost]
      rw [hopenBr, hcloseBr]
      simp only [bne_self_eq_false]
      cases hE : host.isEmpty with
      | true => simp [hE]
      | false => simp [hE]

/-- C10 (amended): for every URL of the shape scheme "://" host ":" port
path — scheme made of scheme characters, host non-empty and free of
":/@[]?#", an explicit port whose digit count is 1 or at least 6, a path
part that is empty or starts with "/", "?" or "#", and no "@" anywhere
after the port (a URL containing "@" can instead match through the
authentication group of URL_REGEX, see the counterexample) — URL_REGEX
does not match and is_valid_url returns a falsy result. -/
theorem is_valid_url_port_digits (v : HostValidators)
    (scheme host ds rest : List Char)
    (hs : ∀ c ∈ scheme, isSchemeChar c = true)
    (hh : host ≠ [])
    (hhc : ∀ c ∈ host,
      c ≠ ':' ∧ c ≠ '/' ∧ c ≠ '@' ∧ c ≠ '[' ∧ c ≠ ']' ∧ c ≠ '?' ∧ c ≠ '#')
    (hd : ∀ c ∈ ds, c.isDigit = true)
    (hdl : ds.length = 1 ∨ 6 ≤ ds.length)
    (hrest : rest = [] ∨ ∃ c rest2, rest = c :: rest2 ∧ (c = '/' ∨ c = '?' ∨ c = '#'))
    (hra : '@' ∉ rest) :
    urlRegexMatch (String.mk (scheme ++ ':' :: '/' :: '/' ::
        (host ++ ':' :: (ds ++ rest)))) = false ∧
    is_valid_url v (String.mk (scheme ++ ':' :: '/' :: '/' ::
        (host ++ ':' :: (ds ++ rest)))) = Except.ok false := by
  have hm := urlRegexMatch_port_false scheme host ds rest hs hh hhc hd hdl hrest hra
  refine ⟨hm, ?_⟩
  obtain ⟨r, hr⟩ := pyHostname_port_ok scheme host ds rest hs hhc hd hrest
  simp [is_valid_url, hm, hr, Bind.bind, Except.bind, Pure.pure, Except.pure]

/-- C10 counterexample: the claim as frozen fails on the code.  The URL
"http://example.com:8/a@b" has the explicit one-digit port 8 (as
urlparse reports), yet URL_REGEX matches it — the authentication group
consumes "example.com:8/a@" — and is_valid_url is truthy on it. -/
theorem is_valid_url_port_digits_counterexample :
    pyPortText "http://example.com:8/a@b" = Except.ok (some "8") ∧
    pyHostname "http://example.com:8/a@b" = Except.ok (some "example.com") ∧
    urlRegexMatch "http://example.com:8/a@b" = true ∧
    is_valid_url demoValidators "http://example.com:8/a@b" = Except.ok true := by
  exact ⟨rfl, rfl, rfl, rfl⟩

/-- Witness for C10 (amended) at the concrete URL "http://example.com:8/",
whose explicit port has one digit: applying is_valid_url_port_digits with
scheme "http", host "example.com", port digits "8" and path "/". -/
theorem is_valid_url_port_digits_witness :
    urlRegexMatch "http://example.com:8/" = false ∧
    is_valid_url demoValidators "http://example.com:8/" = Except.ok false := by
  have h := is_valid_url_port_digits demoValidators
    ['h', 't', 't', 'p'] ['e', 'x', 'a', 'm', 'p', 'l', 'e', '.', 'c', 'o', 'm']
    ['8'] ['/']
    (by decide) (by decide) (by decide) (by decide) (by simp)
    (by right; exact ⟨'/', [], rfl, Or.inl rfl⟩) (by decide)
  exact h

/-! ### C4: UnknownCodeError propagates from DNSBL decoding -/

theorem get_classifications_unknown (m : List (Nat × String)) (codes : List Nat)
    (h : ∃ c ∈ codes, m.find? (fun p => p.1 == c) = none) :
    get_classifications m codes = Except.error SpamListsError.unknownCodeError := by
  induction codes with
  | nil => simp at h
  | cons c rest ih =>
      cases hfind : m.find? (fun p => p.1 == c) with
      | none =>
          simp [get_classifications, get_classification, hfind,
            Bind.bind, Except.bind]
      | some p =>
          have hrest : ∃ c2 ∈ rest, m.find? (fun q => q.1 == c2) = none := by
            rcases h with ⟨c2, hc2, hfind2⟩
            rcases List.mem_cons.mp hc2 with rfl | h2
            · rw [hfind] at hfind2
              exact absurd hfind2 (by simp)
            · exact ⟨c2, h2, hfind2⟩
          simp [get_classifications, get_classification, hfind, ih hrest,
            Bind.bind, Except.bind]

/-- C4: for every DNSBL backend, an UnknownCodeError raised while decoding
classification return codes propagates uncaught through lookup and through
lookup_matching (which yields nothing before the error); in particular,
with the mapping containing only the codes 1 and 2, decoding the code 4
raises UnknownCodeError. -/
theorem dnsbl_unknown_code (b : DNSBL) (v : HostValidators)
    (urlValid : String → Bool) (resolver : String → Option (List Nat))
    (host url : String) (codes : List Nat)
    (hvalid : is_valid_host v host = true)
    (hres : resolver (queryName b host) = some codes)
    (hmiss : ∃ c ∈ codes, b.code_item_class.find? (fun p => p.1 == c) = none)
    (hurl : urlValid url = true)
    (hhost : pyHostname url = Except.ok (some host)) :
    get_classification [(1, "Class #1"), (2, "Class #2")] 4 =
      Except.error SpamListsError.unknownCodeError ∧
    get_classifications b.code_item_class codes =
      Except.error SpamListsError.unknownCodeError ∧
    b.lookup v resolver host = Except.error SpamListsError.unknownCodeError ∧
    b.lookup_matching v urlValid resolver [url] =
      ([], some SpamListsError.unknownCodeError) := by
  have hdec := get_classifications_unknown b.code_item_class codes hmiss
  have hlook : b.lookup v resolver host = Except.error SpamListsError.unknownCodeError := by
    simp [DNSBL.lookup, hvalid, hres, hdec, Bind.bind, Except.bind]
  refine ⟨rfl, hdec, hlook, ?_⟩
  have hv : [url].any (fun u => !urlValid u) = false := by
    simp [hurl]
  have htest : (do
      let h ← hostOfURL url
      b.lookup v resolver h) = Except.error SpamListsError.unknownCodeError := by
    simp [hostOfURL, hhost, hlook, Bind.bind, Except.bind]
  simp [DNSBL.lookup_matching, hv, lookup_matching_run, htest]

/-- Witness for C4: the legacy-test configuration — mapping 1 and 2 only,
a resolver answering code 4 for the queried name — applied through
dnsbl_unknown_code. -/
theorem dnsbl_unknown_code_witness :
    DNSBL.lookup ⟨"test_service", "test.query.domain",
        [(1, "Class #1"), (2, "Class #2")]⟩ demoValidators
      (fun q => if q == "hostwithunknowncode.com.test.query.domain"
        then some [4] else none)
      "hostwithunknowncode.com" = Except.error SpamListsError.unknownCodeError ∧
    DNSBL.lookup_matching ⟨"test_service", "test.query.domain",
        [(1, "Class #1"), (2, "Class #2")]⟩ demoValidators (fun _ => true)
      (fun q => if q == "hostwithunknowncode.com.test.query.domain"
        then some [4] else none)
      ["http://hostwithunknowncode.com"] =
      ([], some SpamListsError.unknownCodeError) := by
  have h := dnsbl_unknown_code ⟨"test_service", "test.query.domain",
      [(1, "Class #1"), (2, "Class #2")]⟩ demoValidators (fun _ => true)
    (fun q => if q == "hostwithunknowncode.com.test.query.domain"
      then some [4] else none)
    "hostwithunknowncode.com" "http://hostwithunknowncode.com" [4]
    (by decide) (by rfl) ⟨4, by simp, by rfl⟩ (by rfl) (by rfl)
  exact ⟨h.2.2.1, h.2.2.2⟩

/-! ### C5: authorization failure of the batch HTTP backend -/

/-- C5: for the batch HTTP backend and every submitted sequence of valid
URLs, when the service answers the POST request with HTTP status 401,
any_match raises UnauthorizedAPIKeyError and lookup_matching raises
UnauthorizedAPIKeyError; neither reports the outcome as no matches. -/
theorem gsb_unauthorized_api_key (g : GoogleSafeBrowsing)
    (urlValid : String → Bool) (post : String → HttpResponse)
    (urls : List String)
    (hvalid : ∀ u ∈ urls, urlValid u = true)
    (h401 : (post (gsbRequestBody urls)).status_code = 401) :
    g.any_match urlValid post urls =
      Except.error SpamListsError.unauthorizedAPIKeyError ∧
    g.lookup_matching urlValid post urls =
      Except.error SpamListsError.unauthorizedAPIKeyError := by
  have hv : urls.any (fun u => !urlValid u) = false := by
    apply List.any_eq_false.mpr
    intro u hu
    simp [hvalid u hu]
  have hraw : gsbRawMatches g post urls =
      Except.error SpamListsError.unauthorizedAPIKeyError := by
    simp [gsbRawMatches, h401]
  constructor <;>
    simp [GoogleSafeBrowsing.any_match, GoogleSafeBrowsing.lookup_matching, hv, hraw]

/-- Witness for C5: two valid URLs, a service always answering 401,
applied through gsb_unauthorized_api_key. -/
theorem gsb_unauthorized_api_key_witness :
    GoogleSafeBrowsing.any_match ⟨"test_client", "0.1", "test_key"⟩
        (fun _ => true) (fun _ => ⟨401, ""⟩)
        ["http://example.com", "http://test.com"] =
      Except.error SpamListsError.unauthorizedAPIKeyError ∧
    GoogleSafeBrowsing.lookup_matching ⟨"test_client", "0.1", "test_key"⟩
        (fun _ => true) (fun _ => ⟨401, ""⟩)
        ["http://example.com", "http://test.com"] =
      Except.error SpamListsError.unauthorizedAPIKeyError :=
  gsb_unauthorized_api_key ⟨"test_client", "0.1", "test_key"⟩
    (fun _ => true) (fun _ => ⟨401, ""⟩)
    ["http://example.com", "http://test.com"]
    (by intro u hu; rfl) (by rfl)

/-! ### C6: HpHosts rejects IPv6 hosts with a ValueError -/

/-- C6: for every string that syntactically validates as IPv6, the HpHosts
backend's membership test and lookup raise ValueError before any network
call (the result does not depend on the get collaborator), any_match and
lookup_matching raise ValueError on a URL whose host is that IPv6 address,
and this ValueError is distinct from InvalidHostError and from a
not-listed result. -/
theorem hphosts_ipv6_value_error (hp : HpHosts) (v : HostValidators)
    (urlValid : String → Bool) (get get2 : String → String) (host : String)
    (hip : v.ipv6 host = true)
    (hurl : urlValid ("http://[" ++ host ++ "]") = true)
    (hhost : pyHostname ("http://[" ++ host ++ "]") = Except.ok (some host)) :
    hp.contains v get host = Except.error SpamListsError.valueError ∧
    hp.lookup v get host = Except.error SpamListsError.valueError ∧
    hp.contains v get host = hp.contains v get2 host ∧
    hp.any_match v urlValid get ["http://[" ++ host ++ "]"] =
      Except.error SpamListsError.valueError ∧
    hp.lookup_matching v urlValid get ["http://[" ++ host ++ "]"] =
      ([], some SpamListsError.valueError) ∧
    SpamListsError.valueError ≠ SpamListsError.invalidHostError := by
  have hvalid : is_valid_host v host = true := by
    simp [is_valid_host, hip]
  have hcont : hp.contains v get host = Except.error SpamListsError.valueError := by
    simp [HpHosts.contains, hvalid, hip]
  have hcont2 : hp.contains v get2 host = Except.error SpamListsError.valueError := by
    simp [HpHosts.contains, hvalid, hip]
  have hlook : hp.lookup v get host = Except.error SpamListsError.valueError := by
    simp [HpHosts.lookup, hvalid, hip]
  have hv : ["http://[" ++ host ++ "]"].any (fun u => !urlValid u) = false := by
    simp [hurl]
  have htest : (do
      let h ← hostOfURL ("http://[" ++ host ++ "]")
      hp.contains v get h) = Except.error SpamListsError.valueError := by
    simp [hostOfURL, hhost, hcont, Bind.bind, Except.bind]
  have htest2 : (do
      let h ← hostOfURL ("http://[" ++ host ++ "]")
      hp.lookup v get h) = Except.error SpamListsError.valueError := by
    simp [hostOfURL, hhost, hlook, Bind.bind, Except.bind]
  refine ⟨hcont, hlook, hcont.trans hcont2.symm, ?_, ?_, by simp⟩
  · simp [HpHosts.any_match, hv, any_match_run, htest]
  · simp [HpHosts.lookup_matching, hv, lookup_matching_run, htest2]

/-- Witness for C6: the concrete IPv6 address of the unit tests,
2001:ddd:ccc:111::33, applied through hphosts_ipv6_value_error with two
different get collaborators. -/
theorem hphosts_ipv6_value_error_witness :
    HpHosts.contains ⟨"spambl_test_suite"⟩ demoValidators
        (fun _ => "Not listed") "2001:ddd:ccc:111::33" =
      Except.error SpamListsError.valueError ∧
    HpHosts.lookup ⟨"spambl_test_suite"⟩ demoValidators
        (fun _ => "Not listed") "2001:ddd:ccc:111::33" =
      Except.error SpamListsError.valueError ∧
    HpHosts.any_match ⟨"spambl_test_suite"⟩ demoValidators (fun _ => true)
        (fun _ => "Not listed") ["http://[2001:ddd:ccc:111::33]"] =
      Except.error SpamListsError.valueError ∧
    HpHosts.lookup_matching ⟨"spambl_test_suite"⟩ demoValidators (fun _ => true)
        (fun _ => "Not listed") ["http://[2001:ddd:ccc:111::33]"] =
      ([], some SpamListsError.valueError) := by
  have h := hphosts_ipv6_value_error ⟨"spambl_test_suite"⟩ demoValidators
    (fun _ => true) (fun _ => "Not listed") (fun _ => "Listed,EMD")
    "2001:ddd:ccc:111::33" (by decide) (by rfl) (by rfl)
  exact ⟨h.1, h.2.1, h.2.2.2.1, h.2.2.2.2.1⟩

/-! ### C7: any_match agrees with filter_matching -/

/-- C7: for every UrlTester backend and every finite input sequence,
any_match is true exactly when filter_matching yields at least one
element: stated for the generic orchestrator over an arbitrary underlying
test (covering the host-based backends), and for the batch HTTP backend,
whose filter_matching decodes one batch exchange. -/
theorem any_match_iff_filter_matching :
    (∀ {V E : Type} (test : V → Except E Bool) (values : List V),
      any_match_run test values = Except.ok true ↔
        (filter_matching_run test values).1 ≠ []) ∧
    (∀ (g : GoogleSafeBrowsing) (urlValid : String → Bool)
        (post : String → HttpResponse) (urls : List String),
      g.any_match urlValid post urls = Except.ok true ↔
        ∃ l, g.filter_matching urlValid post urls = Except.ok l ∧ l ≠ []) := by
  constructor
  · intro V E test values
    induction values with
    | nil => simp [any_match_run, filter_matching_run]
    | cons v rest ih =>
        cases htest : test v with
        | error e => simp [any_match_run, filter_matching_run, htest]
        | ok b =>
            cases b with
            | true => simp [any_match_run, filter_matching_run, htest]
            | false => simpa [any_match_run, filter_matching_run, htest] using ih
  · intro g urlValid post urls
    cases hval : urls.any (fun u => !urlValid u) with
    | true =>
        simp [GoogleSafeBrowsing.any_match, GoogleSafeBrowsing.filter_matching, hval]
    | false =>
        cases hraw : gsbRawMatches g post urls with
        | error e =>
            simp [GoogleSafeBrowsing.any_match, GoogleSafeBrowsing.filter_matching,
              hval, hraw]
        | ok ms =>
            simp only [GoogleSafeBrowsing.any_match, GoogleSafeBrowsing.filter_matching,
              hval, hraw]
            cases ms with
            | nil => simp
            | cons m rest => simp

/-! ### C8: lookup agrees with the membership test -/

theorem get_classifications_ok (m : List (Nat × String)) (codes : List Nat)
    (h : ∀ c ∈ codes, (m.find? (fun p => p.1 == c)).isSome = true) :
    ∃ tags, get_classifications m codes = Except.ok tags := by
  induction codes with
  | nil => exact ⟨[], rfl⟩
  | cons c rest ih =>
      have hc := h c (List.mem_cons_self c rest)
      cases hfind : m.find? (fun p => p.1 == c) with
      | none => rw [hfind] at hc; simp at hc
      | some p =>
          obtain ⟨tags, htags⟩ := ih (fun c2 h2 => h c2 (List.mem_cons_of_mem c h2))
          refine ⟨p.2 :: tags, ?_⟩
          simp [get_classifications, get_classification, hfind, htags,
            Bind.bind, Except.bind, Pure.pure, Except.pure]

/-- C8: for every backend and every valid host, lookup returns a match
exactly when the membership test is true: for the DNSBL backend (under a
mapping covering the returned codes, since an unmapped code raises
instead, see C4), for the HpHosts backend, and for the in-memory
HostCollection backend. -/
theorem lookup_contains_consistency :
    (∀ (b : DNSBL) (v : HostValidators) (resolver : String → Option (List Nat))
        (host : String),
      (∀ codes, resolver (queryName b host) = some codes →
        ∀ c ∈ codes, (b.code_item_class.find? (fun p => p.1 == c)).isSome = true) →
      ((∃ item, b.lookup v resolver host = Except.ok (some item)) ↔
        b.contains v resolver host = Except.ok true)) ∧
    (∀ (hp : HpHosts) (v : HostValidators) (get : String → String) (host : String),
      (∃ item, hp.lookup v get host = Except.ok (some item)) ↔
        hp.contains v get host = Except.ok true) ∧
    (∀ (col : HostCollection) (h : Host),
      (col.lookupHost h).isSome = col.containsHost h) := by
  refine ⟨?_, ?_, ?_⟩
  · intro b v resolver host hcov
    cases hvalid : is_valid_host v host with
    | false => simp [DNSBL.lookup, DNSBL.contains, hvalid]
    | true =>
        cases hres : resolver (queryName b host) with
        | none => simp [DNSBL.lookup, DNSBL.contains, hvalid, hres]
        | some codes =>
            obtain ⟨tags, htags⟩ :=
              get_classifications_ok b.code_item_class codes (hcov codes hres)
            simp [DNSBL.lookup, DNSBL.contains, hvalid, hres, htags,
              Bind.bind, Except.bind]
  · intro hp v get host
    cases hvalid : is_valid_host v host with
    | false => simp [HpHosts.lookup, HpHosts.contains, hvalid]
    | true =>
        cases hip : v.ipv6 host with
        | true => simp [HpHosts.lookup, HpHosts.contains, hvalid, hip]
        | false =>
            cases hdec : hpDecode (get (hpQueryURL hp host)) with
            | none => simp [HpHosts.lookup, HpHosts.contains, hvalid, hip, hdec]
            | some tags => simp [HpHosts.lookup, HpHosts.contains, hvalid, hip, hdec]
  · intro col h
    simp only [HostCollection.lookupHost, HostCollection.containsHost]
    induction col.hosts with
    | nil => simp
    | cons s rest ih =>
        cases hmatch : (s == h || Host.is_subdomain h s) with
        | true => simp [List.find?_cons, List.any_cons, hmatch]
        | false => simpa [List.find?_cons, List.any_cons, hmatch] using ih

/-- Witness for C8: a DNSBL with a covering mapping and a listed host, an
HpHosts instance with a listed host, and a HostCollection holding the
candidate host, applied through lookup_contains_consistency. -/
theorem lookup_contains_consistency_witness :
    (DNSBL.contains ⟨"zen", "dnsbl.example", [(2, "spam")]⟩ demoValidators
        (fun q => if q == "127.0.0.2.dnsbl.example" then some [2] else none)
        "127.0.0.2" = Except.ok true ∧
      (∃ item, DNSBL.lookup ⟨"zen", "dnsbl.example", [(2, "spam")]⟩ demoValidators
        (fun q => if q == "127.0.0.2.dnsbl.example" then some [2] else none)
        "127.0.0.2" = Except.ok (some item))) ∧
    (HpHosts.contains ⟨"spambl_test_suite"⟩ demoValidators
        (fun _ => "Listed,EMD") "example.com" = Except.ok true ∧
      (∃ item, HpHosts.lookup ⟨"spambl_test_suite"⟩ demoValidators
        (fun _ => "Listed,EMD") "example.com" = Except.ok (some item))) := by
  constructor
  · have h := (lookup_contains_consistency.1
      ⟨"zen", "dnsbl.example", [(2, "spam")]⟩ demoValidators
      (fun q => if q == "127.0.0.2.dnsbl.example" then some [2] else none)
      "127.0.0.2"
      (by
        intro codes hcodes c hc
        have h2 : some ([2] : List Nat) = some codes := by
          rw [← hcodes]
          rfl
        injection h2 with h3
        subst h3
        rw [List.mem_singleton] at hc
        subst hc
        rfl))
    exact ⟨by rfl, h.mpr (by rfl)⟩
  · have h := (lookup_contains_consistency.2.1 ⟨"spambl_test_suite"⟩
      demoValidators (fun _ => "Listed,EMD") "example.com")
    exact ⟨by rfl, h.mpr (by rfl)⟩

/-! ### C9: subdomain matching in HostCollection -/

/-- C9: for all hosts h1, h2 with h1 a strict subdomain of h2, a
HostCollection containing only h2 reports h1 as a member; and membership
of a candidate holds exactly when some stored host equals it or the
candidate is a subdomain of a stored host. -/
theorem hostcollection_subdomain_membership :
    (∀ (idf : String) (cls : List String) (h1 h2 : Host),
      Host.is_subdomain h1 h2 = true →
      HostCollection.containsHost ⟨idf, cls, [h2]⟩ h1 = true) ∧
    (∀ (col : HostCollection) (h : Host),
      col.containsHost h = true ↔
        ∃ s ∈ col.hosts, s = h ∨ Host.is_subdomain h s = true) := by
  constructor
  · intro idf cls h1 h2 hsub
    simp [HostCollection.containsHost, hsub]
  · intro col h
    simp only [HostCollection.containsHost, List.any_eq_true, Bool.or_eq_true,
      beq_iff_eq]

/-- Witness for C9: mail.example.com is a strict subdomain of example.com,
and a collection holding only example.com contains it, by applying
hostcollection_subdomain_membership. -/
theorem hostcollection_subdomain_membership_witness :
    Host.is_subdomain (Host.domain ["mail", "example", "com"])
      (Host.domain ["example", "com"]) = true ∧
    HostCollection.containsHost
      ⟨"test_host_collection", ["test_classification"],
        [Host.domain ["example", "com"]]⟩
      (Host.domain ["mail", "example", "com"]) = true := by
  refine ⟨by decide, ?_⟩
  exact hostcollection_subdomain_membership.1 "test_host_collection"
    ["test_classification"] (Host.domain ["mail", "example", "com"])
    (Host.domain ["example", "com"]) (by decide)

end SpamLists
